import Mathlib

/-!
Verification development for the `dependencies` module of ohdevtools:
a shallow embedding of its template/configuration expansion engine
(`EnvironmentExpander`, `is_trueish`), its dependency-record operations
(`Dependency.fetch`, `Dependency.checkout`), its collection layer
(`DependencyCollection.create_dependency`, batch `fetch`/`checkout`),
and its transactional directory cleaner (`clean_directories`).

Python-level values (JSON scalars, strings, lists, objects) are modelled
by the inductive `Value`; machine effects (filesystem renames, network
opens, subprocess exits) are modelled by explicit state passing or by
outcome parameters mirroring the exception classes the source
distinguishes.  Recursion in the expander is bounded by an explicit fuel
argument; running out of fuel is the distinguished error `ExpErr.fuelOut`,
so that a result other than `fuelOut` reflects what the Python code
computes.
-/

/-! ## Values

A JSON-ish value as held in a dependency environment.  `num` covers the
integer values the tables use (`strip-archive-dirs`, truthy `1`). -/

inductive Value where
  | str (s : String)
  | b (bv : Bool)
  | num (n : Int)
  | null
  | list (vs : List Value)
  | dict (kvs : List (String × Value))
deriving Repr

/-! ## String helpers

Python `str.strip`, `str.upper`, `'c' in s`, and `s.split(c, 1)`, written
over `List Char` so that every definition is structurally recursive and
kernel-reducible. -/

def dropWS : List Char → List Char
  | [] => []
  | c :: cs => if c.isWhitespace then dropWS cs else c :: cs

/-- Python `str.strip()`: remove leading and trailing whitespace. -/
def pyStrip (s : String) : String :=
  String.mk ((dropWS ((dropWS s.data).reverse)).reverse)

/-- Python `str.upper()` (ASCII, which is all the truthy table needs). -/
def pyUpper (s : String) : String :=
  String.mk (s.data.map Char.toUpper)

/-- Python `c in s` for a single character. -/
def strContains (s : String) (c : Char) : Bool :=
  s.data.any (fun x => x == c)

def splitFirstAux (c : Char) : List Char → Option (List Char × List Char)
  | [] => none
  | x :: xs =>
    if x == c then some ([], xs)
    else
      match splitFirstAux c xs with
      | none => none
      | some (a, bs) => some (x :: a, bs)

/-- Python `s.split(c, 1)` when `c` occurs in `s` (`none` when it does not). -/
def splitFirst (c : Char) (s : String) : Option (String × String) :=
  match splitFirstAux c s.data with
  | none => none
  | some (a, bs) => some (String.mk a, String.mk bs)

/-! ## `is_trueish`

Source: `dependencies.py` lines 187-190.  Values with an `upper` method
(strings) are upper-cased first; then membership in
`[1, "1", "YES", "Y", "TRUE", "ON", True]` is tested.  Python equality
makes `True == 1`, so booleans land on the `True`/`1` entries, integers on
`1`, and nothing else compares equal to any entry. -/

def is_trueish : Value → Bool
  | .str s => [ "1", "YES", "Y", "TRUE", "ON" ].contains (pyUpper s)
  | .num n => n == 1
  | .b bv => bv
  | _ => false

/-! ## Template tokenizer

`EnvironmentExpander.template_regex` matches, left to right:
`$$` (escaped dollar), `$word` (`[a-zA-Z_][a-zA-Z_0-9]*`), and
`$\x7b...\x7d` (anything up to the first closing brace).  Text that
matches none of the three alternatives is copied through literally,
including a `$` that starts no match.  `re.sub` is modelled by
tokenizing the template and then substituting token by token. -/

inductive Token where
  | lit (s : String)
  | key (k : String)
deriving Repr, DecidableEq

/-- Longest run of `[a-zA-Z_0-9]` chars, and the rest. -/
def takeWord : List Char → List Char × List Char
  | [] => ([], [])
  | c :: cs =>
    if c.isAlphanum || c == '_' then
      let p := takeWord cs
      (c :: p.1, p.2)
    else ([], c :: cs)

/-- Split at the first closing brace: `[^\x7d]*` then the brace itself. -/
def splitBrace : List Char → Option (List Char × List Char)
  | [] => none
  | c :: cs =>
    if c == '}' then some ([], cs)
    else
      match splitBrace cs with
      | none => none
      | some (a, bs) => some (c :: a, bs)

/-- Tokenizer worker.  The fuel argument only serves structural
termination; `tokenize` passes `length + 1`, which every step maintains
above the remaining input length, so the `0` branch is never reached. -/
def tokenizeAux : Nat → List Char → List Token
  | 0, _ => []
  | _ + 1, [] => []
  | f + 1, '$' :: '$' :: cs => .lit "$" :: tokenizeAux f cs
  | f + 1, '$' :: '{' :: cs =>
    (match splitBrace cs with
     | some (inner, rest) => .key (String.mk inner) :: tokenizeAux f rest
     | none => .lit "$" :: tokenizeAux f ('{' :: cs))
  | f + 1, '$' :: c :: cs =>
    if c.isAlpha || c == '_' then
      let p := takeWord cs
      .key (String.mk (c :: p.1)) :: tokenizeAux f p.2
    else .lit "$" :: tokenizeAux f (c :: cs)
  | _ + 1, '$' :: [] => [.lit "$"]
  | f + 1, c :: cs => .lit (String.mk [c]) :: tokenizeAux f cs

def tokenize (s : String) : List Token :=
  tokenizeAux (s.data.length + 1) s.data

/-! ## The expander

Source: `EnvironmentExpander` (`dependencies.py` lines 192-266).  The
environment dictionary is a fixed function `Env`; the mutable state is
the memo `cache` and the in-progress set `expandset`.  Exceptions are
modelled by `Except` whose error also carries the state at raise time:
Python's mutations survive a propagating (or caught) exception, and in
particular `expand` has no `finally`, so a key pushed onto `expandset`
by a failing resolution is never popped. -/

abbrev Env := String → Option Value

structure ExpState where
  cache : List (String × Value)
  expandset : List String
deriving Repr

inductive ExpErr where
  | keyError (k : String)    -- KeyError("Key undefined:", key)
  | recursive (k : String)   -- ValueError("Recursive expansion for key:", key)
  | malformed                -- ValueError: conditional must be of form ...
  | typeErrorStr             -- re.sub replacement function returned a non-str
  | attrError                -- self.expandvalue: no such attribute (dict branch)
  | fuelOut                  -- model artefact: fuel exhausted
deriving Repr, DecidableEq

abbrev Res := Except (ExpErr × ExpState) (Value × ExpState)

/-- The jobs of the mutually recursive Python methods: `expand` (`key`),
`_expandvalue` (`value`), the `re.sub` loop (`toks`), the list
comprehension in `_expandvalue` (`vlist`), `replacematch` after key
extraction (`rep`), and `expandconditional` (`cond`). -/
inductive Job where
  | key (k : String)
  | value (v : Value)
  | toks (ts : List Token)
  | vlist (vs : List Value)
  | rep (k : String)
  | cond (k : String)

/-- The string payload of a value (total helper for the `toks` job, whose
results are always `.str` by construction). -/
def valStr : Value → String
  | .str s => s
  | _ => ""

/-- `set.remove(k)` on the in-progress set (which never holds duplicates:
a key already present is rejected before being pushed). -/
def removeKey (k : String) : List String → List String
  | [] => []
  | x :: xs => if x == k then xs else x :: removeKey k xs

def expandF (env : Env) : Nat → ExpState → Job → Res
  | 0, st, .key k =>
    (match List.lookup k st.cache with
     | some v => .ok (v, st)
     | none =>
       if st.expandset.contains k then .error (.recursive k, st)
       else .error (.fuelOut, st))
  | 0, st, _ => .error (.fuelOut, st)
  | f + 1, st, .key k =>
    (match List.lookup k st.cache with
     | some v => .ok (v, st)
     | none =>
       if st.expandset.contains k then .error (.recursive k, st)
       else
         -- self.expandset.add(key)
         let st1 : ExpState := ⟨st.cache, k :: st.expandset⟩
         match env k with
         | none => .error (.keyError k, st1)       -- _expand: KeyError
         | some v =>
           match expandF env f st1 (.value v) with
           | .error e => .error e
           | .ok (r, st2) =>
             -- self.cache[key] = result; self.expandset.remove(key)
             .ok (r, ⟨(k, r) :: st2.cache, removeKey k st2.expandset⟩))
  | f + 1, st, .value v =>
    (match v with
     | .str s =>
       (match expandF env f st (.toks (tokenize s)) with
        | .error e => .error e
        | .ok (r, st') => .ok (r, st'))
     | .list vs => expandF env f st (.vlist vs)
     | .dict [] => .ok (.dict [], st)
     | .dict (_ :: _) => .error (.attrError, st)   -- calls missing self.expandvalue
     | other => .ok (other, st))
  | f + 1, st, .toks ts =>
    (match ts with
     | [] => .ok (.str "", st)
     | .lit s :: rest =>
       (match expandF env f st (.toks rest) with
        | .error e => .error e
        | .ok (r, st') => .ok (.str (s ++ valStr r), st'))
     | .key k :: rest =>
       (match expandF env f st (.rep k) with
        | .error e => .error e
        | .ok (v, st') =>
          match v with
          | .str s =>
            (match expandF env f st' (.toks rest) with
             | .error e => .error e
             | .ok (r, st'') => .ok (.str (s ++ valStr r), st''))
          | _ => .error (.typeErrorStr, st')))
  | f + 1, st, .vlist vs =>
    (match vs with
     | [] => .ok (.list [], st)
     | v :: rest =>
       (match expandF env f st (.value v) with
        | .error e => .error e
        | .ok (r, st') =>
          match expandF env f st' (.vlist rest) with
          | .error e => .error e
          | .ok (.list rs, st'') => .ok (.list (r :: rs), st'')
          | .ok (x, st'') => .ok (x, st'')))
  | f + 1, st, .rep k =>
    let k' := pyStrip k
    if strContains k' '?' then expandF env f st (.cond k')
    else expandF env f st (.key k')
  | f + 1, st, .cond k =>
    (match splitFirst '?' k with
     | none => .error (.malformed, st)
     | some (cond, rest) =>
       match splitFirst ':' rest with
       | none => .error (.malformed, st)
       | some (primary, alt) =>
         match expandF env f st (.key (pyStrip cond)) with
         | .ok (cv, st') =>
           if is_trueish cv then expandF env f st' (.key (pyStrip primary))
           else expandF env f st' (.key (pyStrip alt))
         | .error (.keyError _, st') =>
           -- except KeyError: conditionvalue = False; is_trueish False is false
           expandF env f st' (.key (pyStrip alt))
         | .error e => .error e)

/-- `EnvironmentExpander.expand`. -/
def expand (env : Env) (fuel : Nat) (st : ExpState) (key : String) : Res :=
  expandF env fuel st (.key key)

/-- `EnvironmentExpander.expandconditional`. -/
def expandconditional (env : Env) (fuel : Nat) (st : ExpState) (k : String) : Res :=
  expandF env fuel st (.cond k)

/-- Fresh expander state: empty cache, empty in-progress set. -/
def initState : ExpState := ⟨[], []⟩

/-! ## Transactional directory cleaning

Source: `clean_directories` (`dependencies.py` lines 446-491).  The
filesystem is a partial map from directory path to an abstract content
token; Windows-style locks are a set of locked content tokens (the lock
follows the directory through a rename, as the source comments describe:
the handle is into the directory, whatever it is currently called).
`os.rename` and `shutil.rmtree` fail exactly on locked contents. -/

abbrev FS := String → Option Nat

def isdir (fs : FS) (d : String) : Bool := (fs d).isSome

/-- `os.rename(src, dst)`: fails (returns `none`) when the source is
missing or its content is locked by another process. -/
def os_rename (locked : List Nat) (fs : FS) (src dst : String) : Option FS :=
  match fs src with
  | none => none
  | some c =>
    if locked.contains c then none
    else some (fun n => if n = dst then some c else if n = src then none else fs n)

/-- `shutil.rmtree(d)`: fails when the directory is missing or locked. -/
def shutil_rmtree (locked : List Nat) (fs : FS) (d : String) : Option FS :=
  match fs d with
  | none => none
  | some c =>
    if locked.contains c then none
    else some (fun n => if n = d then none else fs n)

def deletemeName (d : String) : String := d ++ ".deleteme"

inductive RenamePhase where
  | success (fs : FS) (moved : List (String × String))
  | failure (faildir : String) (fs : FS) (moved : List (String × String))

/-- The first loop of `clean_directories`: skip non-directories, rename
each remaining directory to its `.deleteme` sibling, recording the pair
in `moved`; stop at the first failing rename, with `lastdirectory` set. -/
def renamePhase (locked : List Nat) : FS → List String → List (String × String) → RenamePhase
  | fs, [], moved => .success fs moved
  | fs, d :: rest, moved =>
    if isdir fs d then
      match os_rename locked fs d (deletemeName d) with
      | none => .failure d fs moved
      | some fs' => renamePhase locked fs' rest (moved ++ [(d, deletemeName d)])
    else renamePhase locked fs rest moved

/-- The `except:` handler: rename everything in `moved` back, in reverse
order.  A failing undo aborts the loop (the new exception propagates);
the boolean records whether every undo succeeded. -/
def rollbackPhase (locked : List Nat) : FS → List (String × String) → FS × Bool
  | fs, [] => (fs, true)
  | fs, (orig, newn) :: rest =>
    match os_rename locked fs newn orig with
    | none => (fs, false)
    | some fs' => rollbackPhase locked fs' rest

/-- The delete loop run only when every rename succeeded. -/
def deletePhase (locked : List Nat) : FS → List (String × String) → FS × Bool
  | fs, [] => (fs, true)
  | fs, (_, newn) :: rest =>
    match shutil_rmtree locked fs newn with
    | none => (fs, false)
    | some fs' => deletePhase locked fs' rest

inductive CleanResult where
  | ok (fs : FS)
  | err (msg : String) (fs : FS)

/-- The message raised when `lastdirectory` is set: it names the
directory whose rename failed. -/
def failMessage (d : String) : String :=
  "Failed to remove directory " ++ d ++ ". Try closing applications that might be using it. (E.g. Visual Studio.)"

/-- The message raised from the delete loop, where `lastdirectory` is
`None` and no directory is named. -/
def genericFailMessage : String :=
  "Failed to remove directory. Try closing applications that might be using it. (E.g. Visual Studio.)"

/-- `clean_directories(directories)`.  On a rename failure the rollback
runs and the outer handler raises a message naming `lastdirectory`
(whether or not the rollback itself got through); on a delete failure the
outer handler raises the generic message. -/
def clean_directories (locked : List Nat) (fs : FS) (dirs : List String) : CleanResult :=
  match renamePhase locked fs dirs [] with
  | .success fs1 moved =>
    (match deletePhase locked fs1 moved with
     | (fs2, true) => .ok fs2
     | (fs2, false) => .err genericFailMessage fs2)
  | .failure d fs1 moved =>
    .err (failMessage d) (rollbackPhase locked fs1 moved.reverse).1

/-! ## Dependency records: fetch and checkout

Source: `Dependency.fetch` (lines 295-319) and `Dependency.checkout`
(lines 329-352).  The externally supplied operations are modelled by
outcome parameters distinguishing exactly the exception classes the
source distinguishes. -/

/-- Outcome of `opener(remote_path)` / `openarchive(...)`: success, an
`IOError` (the only class the `try` catches), or any other exception
(e.g. a corrupt-archive error, which is not an `IOError`). -/
inductive OpenOutcome where
  | ok
  | ioError
  | otherError
deriving DecidableEq

/-- Outcome of `os.makedirs(local_path)`: success, `OSError` because the
directory already exists, or any other `OSError`. -/
inductive MkdirOutcome where
  | ok
  | errAlreadyExists
  | errOther
deriving DecidableEq

/-- Outcome of `extract_archive(...)`. -/
inductive ExtractOutcome where
  | ok
  | fails
deriving DecidableEq

/-- A Python call observed from outside: it returned a bool, or it raised. -/
inductive PyOut where
  | ret (bv : Bool)
  | raise (msg : String)
deriving DecidableEq

/-- `Dependency.fetch`.  The `try` around the open catches only
`IOError` (log FAILED, return `False`); `os.makedirs` sits in
`try ... except OSError: pass`, so every `MkdirOutcome` falls through;
`extract_archive` runs outside any handler, so its failure propagates. -/
def Dependency.fetch (openO : OpenOutcome) (mk : MkdirOutcome) (ex : ExtractOutcome) :
    List String × PyOut :=
  match openO with
  | .ioError => (["Fetching", "  FAILED"], .ret false)
  | .otherError => (["Fetching"], .raise "open failed with a non-IOError")
  | .ok =>
    -- try: os.makedirs(local_path) except OSError: pass -- `mk` is ignored
    match mk with
    | _ =>
      match ex with
      | .fails => (["Fetching", "  unpacking"], .raise "extract_archive failed")
      | .ok => (["Fetching", "  unpacking", "  OK"], .ret true)

/-- Result of `self['source-git']` on the record's expander: the key is
absent from the merged environment (the expander raises `KeyError`), or
resolves to `None`, or resolves to a repository string. -/
inductive SgLookup where
  | absent
  | null
  | repo
deriving DecidableEq

/-- State of the sibling path `../name`. -/
inductive PathState where
  | missing
  | existsNotDir
  | existsDir
deriving DecidableEq

/-- `Dependency.checkout`.  `self['source-git']` runs before the `try`,
so an absent key raises; a `None` value logs and returns `False`; every
`subprocess.CalledProcessError` from clone/fetch/checkout is caught,
logged, and turned into `False`. -/
def Dependency.checkout (sg : SgLookup) (ps : PathState)
    (cloneOk fetchOk checkoutOk : Bool) : List String × PyOut :=
  match sg with
  | .absent => ([], .raise "KeyError: source-git")
  | .null => (["No git repo defined"], .ret false)
  | .repo =>
    match ps with
    | .missing =>
      if cloneOk then
        if checkoutOk then (["Fetching source", "  git clone", "  git checkout"], .ret true)
        else (["Fetching source", "  git clone", "  git checkout", "CalledProcessError"], .ret false)
      else (["Fetching source", "  git clone", "CalledProcessError"], .ret false)
    | .existsNotDir => (["Fetching source", "Cannot checkout"], .ret false)
    | .existsDir =>
      if fetchOk then
        if checkoutOk then (["Fetching source", "  git fetch origin", "  git checkout"], .ret true)
        else (["Fetching source", "  git fetch origin", "  git checkout", "CalledProcessError"], .ret false)
      else (["Fetching source", "  git fetch origin", "CalledProcessError"], .ret false)

/-! ## The collection layer: batch fetch / checkout

Source: `DependencyCollection.fetch` / `.checkout` (lines 400-419) and
`_filter` (lines 389-395).  A record's own `fetch()` / `checkout()`
outcome is abstracted to a boolean field. -/

structure Dep where
  name : String
  fetch_ok : Bool
  checkout_ok : Bool
deriving DecidableEq

/-- `_filter(subset)`: the whole collection when `subset` is `None`;
otherwise every requested name must exist, and the records are returned
in subset order. -/
def filterSubset (col : List Dep) : Option (List String) → Except String (List Dep)
  | none => .ok col
  | some names =>
    let missing := names.filter (fun n => !(col.any (fun d => d.name == n)))
    if missing.isEmpty then
      .ok (names.filterMap (fun n => col.find? (fun d => d.name == n)))
    else
      .error ("No entries in dependency file named: " ++ String.intercalate ", " missing ++ ".")

/-- The `for d in dependencies` loop of `DependencyCollection.fetch`:
returns the names attempted (in order) and the names whose `d.fetch()`
returned `False` (in order). -/
def fetchLoop : List Dep → List String × List String
  | [] => ([], [])
  | d :: rest =>
    let r := fetchLoop rest
    (d.name :: r.1, if d.fetch_ok then r.2 else d.name :: r.2)

/-- The loop of `DependencyCollection.checkout`. -/
def checkoutLoop : List Dep → List String × List String
  | [] => ([], [])
  | d :: rest =>
    let r := checkoutLoop rest
    (d.name :: r.1, if d.checkout_ok then r.2 else d.name :: r.2)

/-- `DependencyCollection.fetch`: `False` iff some entry failed. -/
def DependencyCollection.fetch (deps : List Dep) : Bool :=
  (fetchLoop deps).2.isEmpty

/-- `DependencyCollection.checkout`: `False` iff some entry failed. -/
def DependencyCollection.checkout (deps : List Dep) : Bool :=
  (checkoutLoop deps).2.isEmpty

/-! ## Building a dependency: type inheritance and overrides

Source: `DEPENDENCY_TYPES` (lines 34-96) and
`DependencyCollection.create_dependency` (lines 367-382).  A Python dict
is an association list with unique keys; `d1.update(d2)` is last-write-
wins, modelled so that lookups hit `d2` first. -/

abbrev Dict := List (String × Value)

def lookupD (d : Dict) (k : String) : Option Value := List.lookup k d

/-- `d1.update(d2)` observed through lookups: keys of `d2` win. -/
def pyUpdate (d1 d2 : Dict) : Dict :=
  d1.filter (fun kv => (lookupD d2 kv.1).isNone) ++ d2

def ignoreType : Dict := [("ignore", .b true)]

def openhomeType : Dict :=
  [ ("archive-extension", .str ".tar.gz"),
    ("archive-prefix", .str ""),
    ("archive-suffix", .str ""),
    ("binary-repo", .str "http://openhome.org/releases/artifacts"),
    ("archive-directory", .str "$\x7bbinary-repo\x7d/$\x7bname\x7d/"),
    ("archive-filename", .str "$\x7barchive-prefix\x7d$\x7bname\x7d-$\x7bversion\x7d-$\x7barchive-platform\x7d$\x7barchive-suffix\x7d$\x7barchive-extension\x7d"),
    ("remote-archive-path", .str "$\x7barchive-directory\x7d$\x7barchive-filename\x7d"),
    ("use-local-archive", .b false),
    ("archive-path", .str "$\x7buse-local-archive?local-archive-path:remote-archive-path\x7d"),
    ("source-path", .str "$\x7blinn-git-user\x7d@core.linn.co.uk:/home/git"),
    ("repo-name", .str "$\x7bname\x7d"),
    ("source-git", .str "$\x7bsource-path\x7d/$\x7brepo-name\x7d.git"),
    ("tag", .str "$\x7brepo-name\x7d_$\x7bversion\x7d"),
    ("any-platform", .str "AnyPlatform"),
    ("platform-specific", .b true),
    ("archive-platform", .str "$\x7bplatform-specific?platform:any-platform\x7d"),
    ("dest", .str "dependencies/$\x7barchive-platform\x7d/"),
    ("configure-args", .list []),
    ("strip-archive-dirs", .num 0) ]

def externalType : Dict :=
  [ ("binary-repo", .str "http://openhome.org/releases/artifacts"),
    ("source-git", .null),
    ("any-platform", .str "AnyPlatform"),
    ("platform-specific", .b true),
    ("archive-platform", .str "$\x7bplatform-specific?platform:any-platform\x7d"),
    ("archive-path", .str "$\x7bbinary-repo\x7d/$\x7barchive-platform\x7d/$\x7barchive-filename\x7d"),
    ("dest", .str "dependencies/$\x7barchive-platform\x7d/"),
    ("configure-args", .list []),
    ("strip-archive-dirs", .num 0) ]

/-- The master table, as a lookup: exactly the three built-in names. -/
def DEPENDENCY_TYPES : String → Option Dict
  | "ignore" => some ignoreType
  | "openhome" => some openhomeType
  | "external" => some externalType
  | _ => none

/-- Python truthiness, for `if 'ignore' in env and env['ignore']:`. -/
def pyTruthy : Value → Bool
  | .b bv => bv
  | .num n => n != 0
  | .str s => !(s.isEmpty)
  | .list l => !l.isEmpty
  | .dict d => !d.isEmpty
  | .null => false

inductive CreateResult where
  | created (name : Value) (env : Dict) (has_overrides : Bool)
  | ignored                 -- truthy 'ignore': returns without adding a record
  | keyErr (k : String)     -- self.dependency_types[dep_type]: KeyError
  | typeErr                 -- unhashable dict key (list/dict 'type' value)
  | valueErr (msg : String) -- "Dependency definition contains no name"
deriving Repr

/-- The name check closing `create_dependency`: a missing `name` is a
`ValueError`, otherwise the record is built with
`has_overrides = len(overrides) > 0`. -/
def mergeName (ov env : Dict) : CreateResult :=
  match lookupD env "name" with
  | none => .valueErr "Dependency definition contains no name"
  | some nv => .created nv env (decide (ov.length > 0))

/-- The tail of `create_dependency` after the type layer was merged (or
skipped): merge the definition, then the overrides, check `ignore`,
then check `name`. -/
def mergeRest (defn ov env1 : Dict) : CreateResult :=
  match lookupD (pyUpdate (pyUpdate env1 defn) ov) "ignore" with
  | some iv =>
    if pyTruthy iv then CreateResult.ignored
    else mergeName ov (pyUpdate (pyUpdate env1 defn) ov)
  | none => mergeName ov (pyUpdate (pyUpdate env1 defn) ov)

/-- `DependencyCollection.create_dependency(defn, overrides)` over a base
environment.  When `'type' in defn`, `self.dependency_types[dep_type]` is
a plain dict subscript: an unknown name raises `KeyError` before the
definition or overrides are merged (a non-string hashable value also
raises `KeyError`; an unhashable value raises `TypeError`). -/
def create_dependency (base defn ov : Dict) : CreateResult :=
  let env0 := pyUpdate [] base
  match lookupD defn "type" with
  | some tv =>
    (match tv with
     | .str t =>
       (match DEPENDENCY_TYPES t with
        | none => .keyErr t
        | some td => mergeRest defn ov (pyUpdate env0 td))
     | .list _ => .typeErr
     | .dict _ => .typeErr
     | _ => .keyErr "non-string type value")
  | none => mergeRest defn ov env0

/-! ## State-evolution predicate for the expander

What survives any expander call, successful or raising: the in-progress
set only grows except for the one key a successful `expand` pops, and a
key that is in progress and uncached stays uncached (its cache entry is
written only by its own successful completion, which would first have
found it in the in-progress set and raised). -/

def outState : Res → ExpState
  | .ok (_, s) => s
  | .error (_, s) => s

def StP (st st' : ExpState) : Prop :=
  (∀ k, k ∈ st.expandset → k ∈ st'.expandset) ∧
  (∀ k, k ∈ st.expandset → List.lookup k st.cache = none → List.lookup k st'.cache = none)

/-! ## Concrete instances used by witnesses and counterexamples -/

/-- An empty environment: every lookup is a `KeyError`. -/
def emptyEnv : Env := fun _ => none

/-- The spec's mutual-reference environment: `a = "$\x7bb\x7d"`, `b = "$\x7ba\x7d"`. -/
def envCycle : Env := fun k =>
  if k = "a" then some (.str "$\x7bb\x7d")
  else if k = "b" then some (.str "$\x7ba\x7d")
  else none

/-- A conditional gate: `flag = "on"`, with both branches defined. -/
def envCond : Env := fun k =>
  if k = "flag" then some (.str "on")
  else if k = "yes" then some (.str "YES-RESULT")
  else if k = "no" then some (.str "NO-RESULT")
  else none

/-- An environment whose value under `m` is a non-empty mapping, the
input on which `_expandvalue` hits the missing `self.expandvalue`. -/
def envDictVal : Env := fun k =>
  if k = "m" then some (.dict [("a", .str "x")]) else none

/-- An environment with a list value, scalar values, and a string
reference inside the list. -/
def envListVal : Env := fun k =>
  if k = "l" then some (.list [.str "$\x7bs\x7d", .num 7, .b false, .null])
  else if k = "s" then some (.str "v")
  else none

/-- Two-record collection: `A` fails its operations, `B` succeeds. -/
def colAB : List Dep := [⟨"A", false, false⟩, ⟨"B", true, true⟩]

/-- The spec example definition `{"name": "A", "type": "external",
"archive-filename": "a.zip"}`. -/
def defnA : Dict :=
  [("name", .str "A"), ("type", .str "external"), ("archive-filename", .str "a.zip")]

/-- The spec example override `{"name": "A", "archive-filename": "a2.zip"}`. -/
def ovA : Dict := [("name", .str "A"), ("archive-filename", .str "a2.zip")]

/-- The merged environment `create_dependency` builds for `defnA`/`ovA`. -/
def envA : Dict := pyUpdate (pyUpdate (pyUpdate (pyUpdate [] []) externalType) defnA) ovA

/-- A filesystem with directories `x` (content 1) and `y` (content 2). -/
def fsXY : FS := fun n =>
  if n = "x" then some 1 else if n = "y" then some 2 else none


/-! # Theorems -/

/-! ## Shared helper lemmas -/

theorem contains_iff_mem (l : List String) (a : String) :
    l.contains a = true ↔ a ∈ l := by
  simp [List.contains]

theorem lookupD_eq (d : Dict) (k : String) : lookupD d k = List.lookup k d := rfl

theorem lookup_filter_hit {d2 : Dict} {k : String} (d1 : Dict)
    (h : List.lookup k d2 = none) :
    List.lookup k (d1.filter fun kv => (List.lookup kv.1 d2).isNone) = List.lookup k d1 := by
  induction d1 with
  | nil => rfl
  | cons p d1 ih =>
    obtain ⟨a, b⟩ := p
    by_cases hk : k = a
    · subst hk
      simp [List.filter_cons, h, List.lookup]
    · have hb : (k == a) = false := beq_eq_false_iff_ne.mpr hk
      by_cases hp : (List.lookup a d2).isNone <;>
        simp [List.filter_cons, hp, List.lookup, hb, ih]

theorem lookup_filter_miss {d2 : Dict} {k : String} (d1 : Dict) {v : Value}
    (h : List.lookup k d2 = some v) :
    List.lookup k (d1.filter fun kv => (List.lookup kv.1 d2).isNone) = none := by
  induction d1 with
  | nil => rfl
  | cons p d1 ih =>
    obtain ⟨a, b⟩ := p
    by_cases hk : k = a
    · subst hk
      simp [List.filter_cons, h, ih]
    · have hb : (k == a) = false := beq_eq_false_iff_ne.mpr hk
      by_cases hp : (List.lookup a d2).isNone <;>
        simp [List.filter_cons, hp, List.lookup, hb, ih]

theorem lookup_pyUpdate (d1 d2 : Dict) (k : String) :
    lookupD (pyUpdate d1 d2) k = (lookupD d2 k).or (lookupD d1 k) := by
  simp only [pyUpdate, lookupD]
  rw [List.lookup_append]
  cases h : List.lookup k d2 with
  | none =>
    rw [lookup_filter_hit d1 h]
    simp [Option.or_none, Option.none_or]
  | some v =>
    rw [lookup_filter_miss d1 h]
    rfl

theorem mergeRest_created {defn ov env1 : Dict} {name : Value} {env : Dict} {ho : Bool}
    (h : mergeRest defn ov env1 = .created name env ho) :
    env = pyUpdate (pyUpdate env1 defn) ov ∧ ho = decide (ov.length > 0) := by
  unfold mergeRest at h
  split at h
  · split at h
    · simp at h
    · unfold mergeName at h
      split at h
      · simp at h
      · simp_all
  · unfold mergeName at h
    split at h
    · simp at h
    · simp_all

/-! ## C2: batch fetch/checkout loop facts -/

theorem fetchLoop_cons (d : Dep) (rest : List Dep) :
    fetchLoop (d :: rest) =
      (d.name :: (fetchLoop rest).1,
       if d.fetch_ok then (fetchLoop rest).2 else d.name :: (fetchLoop rest).2) := rfl

theorem checkoutLoop_cons (d : Dep) (rest : List Dep) :
    checkoutLoop (d :: rest) =
      (d.name :: (checkoutLoop rest).1,
       if d.checkout_ok then (checkoutLoop rest).2 else d.name :: (checkoutLoop rest).2) := rfl

theorem fetchLoop_attempts (deps : List Dep) :
    (fetchLoop deps).1 = deps.map Dep.name := by
  induction deps with
  | nil => rfl
  | cons d rest ih => simp [fetchLoop_cons, ih]

theorem checkoutLoop_attempts (deps : List Dep) :
    (checkoutLoop deps).1 = deps.map Dep.name := by
  induction deps with
  | nil => rfl
  | cons d rest ih => simp [checkoutLoop_cons, ih]

theorem fetchLoop_failed_iff (deps : List Dep) (n : String) :
    n ∈ (fetchLoop deps).2 ↔ ∃ d ∈ deps, d.name = n ∧ d.fetch_ok = false := by
  induction deps with
  | nil => simp [fetchLoop]
  | cons d rest ih =>
    rw [fetchLoop_cons]
    by_cases hd : d.fetch_ok
    · simp only [hd, if_pos, ih, List.mem_cons]
      constructor
      · rintro ⟨w, hw, hn, hf⟩
        exact ⟨w, Or.inr hw, hn, hf⟩
      · rintro ⟨w, hw | hw, hn, hf⟩
        · subst hw; rw [hd] at hf; cases hf
        · exact ⟨w, hw, hn, hf⟩
    · have hd' : d.fetch_ok = false := Bool.eq_false_iff.mpr hd
      simp only [hd', Bool.false_eq_true, if_neg, not_false_iff, List.mem_cons, ih]
      constructor
      · rintro (h | ⟨w, hw, hn, hf⟩)
        · exact ⟨d, Or.inl rfl, h.symm, hd'⟩
        · exact ⟨w, Or.inr hw, hn, hf⟩
      · rintro ⟨w, hw | hw, hn, hf⟩
        · subst hw; exact Or.inl hn.symm
        · exact Or.inr ⟨w, hw, hn, hf⟩

theorem checkoutLoop_failed_iff (deps : List Dep) (n : String) :
    n ∈ (checkoutLoop deps).2 ↔ ∃ d ∈ deps, d.name = n ∧ d.checkout_ok = false := by
  induction deps with
  | nil => simp [checkoutLoop]
  | cons d rest ih =>
    rw [checkoutLoop_cons]
    by_cases hd : d.checkout_ok
    · simp only [hd, if_pos, ih, List.mem_cons]
      constructor
      · rintro ⟨w, hw, hn, hf⟩
        exact ⟨w, Or.inr hw, hn, hf⟩
      · rintro ⟨w, hw | hw, hn, hf⟩
        · subst hw; rw [hd] at hf; cases hf
        · exact ⟨w, hw, hn, hf⟩
    · have hd' : d.checkout_ok = false := Bool.eq_false_iff.mpr hd
      simp only [hd', Bool.false_eq_true, if_neg, not_false_iff, List.mem_cons, ih]
      constructor
      · rintro (h | ⟨w, hw, hn, hf⟩)
        · exact ⟨d, Or.inl rfl, h.symm, hd'⟩
        · exact ⟨w, Or.inr hw, hn, hf⟩
      · rintro ⟨w, hw | hw, hn, hf⟩
        · subst hw; exact Or.inl hn.symm
        · exact Or.inr ⟨w, hw, hn, hf⟩

/-- C2.  For every built collection and admissible subset of its names,
the batch `fetch` and `checkout` attempt every selected entry in order
(no early abort on a failure), return true exactly when every attempted
entry succeeded, and the failure report holds the names of exactly the
failing entries. -/
theorem c2_batch_failure_isolation
    (col : List Dep) (sub : Option (List String)) (deps : List Dep)
    (_h : filterSubset col sub = .ok deps) :
    (fetchLoop deps).1 = deps.map Dep.name ∧
    (DependencyCollection.fetch deps = true ↔ ∀ d ∈ deps, d.fetch_ok = true) ∧
    (∀ d ∈ deps, d.fetch_ok = false → d.name ∈ (fetchLoop deps).2) ∧
    (∀ n ∈ (fetchLoop deps).2, ∃ d ∈ deps, d.name = n ∧ d.fetch_ok = false) ∧
    (checkoutLoop deps).1 = deps.map Dep.name ∧
    (DependencyCollection.checkout deps = true ↔ ∀ d ∈ deps, d.checkout_ok = true) ∧
    (∀ d ∈ deps, d.checkout_ok = false → d.name ∈ (checkoutLoop deps).2) ∧
    (∀ n ∈ (checkoutLoop deps).2, ∃ d ∈ deps, d.name = n ∧ d.checkout_ok = false) := by
  refine ⟨fetchLoop_attempts deps, ?_, ?_, ?_, checkoutLoop_attempts deps, ?_, ?_, ?_⟩
  · rw [DependencyCollection.fetch, List.isEmpty_iff, List.eq_nil_iff_forall_not_mem]
    constructor
    · intro hno d hd
      by_contra hne
      exact hno d.name ((fetchLoop_failed_iff deps d.name).mpr
        ⟨d, hd, rfl, Bool.eq_false_iff.mpr hne⟩)
    · intro hall n hn
      obtain ⟨d, hd, -, hfo⟩ := (fetchLoop_failed_iff deps n).mp hn
      exact absurd (hall d hd) (by simp [hfo])
  · intro d hd hfo
    exact (fetchLoop_failed_iff deps d.name).mpr ⟨d, hd, rfl, hfo⟩
  · intro n hn
    exact (fetchLoop_failed_iff deps n).mp hn
  · rw [DependencyCollection.checkout, List.isEmpty_iff, List.eq_nil_iff_forall_not_mem]
    constructor
    · intro hno d hd
      by_contra hne
      exact hno d.name ((checkoutLoop_failed_iff deps d.name).mpr
        ⟨d, hd, rfl, Bool.eq_false_iff.mpr hne⟩)
    · intro hall n hn
      obtain ⟨d, hd, -, hfo⟩ := (checkoutLoop_failed_iff deps n).mp hn
      exact absurd (hall d hd) (by simp [hfo])
  · intro d hd hfo
    exact (checkoutLoop_failed_iff deps d.name).mpr ⟨d, hd, rfl, hfo⟩
  · intro n hn
    exact (checkoutLoop_failed_iff deps n).mp hn

/-- C2 witness: the subset `["A", "B"]` of `colAB`, where `A` fails and
`B` succeeds. -/
theorem c2_witness :
    (fetchLoop colAB).1 = colAB.map Dep.name ∧
    (DependencyCollection.fetch colAB = true ↔ ∀ d ∈ colAB, d.fetch_ok = true) ∧
    (∀ d ∈ colAB, d.fetch_ok = false → d.name ∈ (fetchLoop colAB).2) ∧
    (∀ n ∈ (fetchLoop colAB).2, ∃ d ∈ colAB, d.name = n ∧ d.fetch_ok = false) ∧
    (checkoutLoop colAB).1 = colAB.map Dep.name ∧
    (DependencyCollection.checkout colAB = true ↔ ∀ d ∈ colAB, d.checkout_ok = true) ∧
    (∀ d ∈ colAB, d.checkout_ok = false → d.name ∈ (checkoutLoop colAB).2) ∧
    (∀ n ∈ (checkoutLoop colAB).2, ∃ d ∈ colAB, d.name = n ∧ d.checkout_ok = false) :=
  c2_batch_failure_isolation colAB (some ["A", "B"]) colAB rfl

/-! ## C7: fetch error handling -/

/-- C7 counterexample: with a directory-creation failure that is not
already-exists (`errOther`), `fetch` neither raises nor fails: the
`except OSError: pass` swallows it and the call behaves exactly as if
`makedirs` had succeeded, returning true.  The claim said such a failure
propagates as fatal. -/
theorem c7_counterexample :
    Dependency.fetch OpenOutcome.ok MkdirOutcome.errOther ExtractOutcome.ok =
      Dependency.fetch OpenOutcome.ok MkdirOutcome.ok ExtractOutcome.ok ∧
    (Dependency.fetch OpenOutcome.ok MkdirOutcome.errOther ExtractOutcome.ok).2 =
      PyOut.ret true := by
  exact ⟨rfl, rfl⟩

/-- C7 amended.  `fetch` returns false (after logging) without raising on
any `IOError` while opening the remote byte stream; every directory-
creation failure — already-exists or otherwise — is swallowed at that
point (`except OSError: pass`), the outcome of `makedirs` never changing
the result; `fetch` returns true on successful extraction, and an
extraction failure propagates. -/
theorem c7_fetch_error_handling :
    (∀ mk ex, (Dependency.fetch OpenOutcome.ioError mk ex).2 = PyOut.ret false) ∧
    (∀ mk ex, Dependency.fetch OpenOutcome.ok mk ex =
              Dependency.fetch OpenOutcome.ok MkdirOutcome.ok ex) ∧
    (∀ mk, (Dependency.fetch OpenOutcome.ok mk ExtractOutcome.ok).2 = PyOut.ret true) ∧
    (∀ mk, (Dependency.fetch OpenOutcome.ok mk ExtractOutcome.fails).2 =
           PyOut.raise "extract_archive failed") := by
  refine ⟨?_, ?_, ?_, ?_⟩ <;> intro mk <;> cases mk <;>
    first
      | (intro ex; cases ex <;> rfl)
      | rfl

/-! ## C8: checkout error handling -/

/-- C8 counterexample: a record whose merged environment lacks the
`source-git` key entirely makes `checkout` raise the expander's
`KeyError` rather than log-and-return-false.  The claim said an absent
key behaves like a null one. -/
theorem c8_counterexample :
    Dependency.checkout SgLookup.absent PathState.missing true true true =
      ([], PyOut.raise "KeyError: source-git") ∧
    PyOut.raise "KeyError: source-git" ≠ PyOut.ret false := by
  exact ⟨rfl, by decide⟩

/-- C8 amended.  `checkout` logs and returns false when `source-git`
resolves to null; when the key is absent the undefined-key error
propagates uncaught; a target path that exists but is not a directory
logs and returns false; and with a repository configured, every external
command failure (`CalledProcessError`) is caught and reported as false —
the call returns a boolean on every such path, true exactly when the
commands it reached all succeeded. -/
theorem c8_checkout_error_handling :
    (∀ ps c f k, (Dependency.checkout SgLookup.null ps c f k).2 = PyOut.ret false) ∧
    (∀ ps c f k, (Dependency.checkout SgLookup.absent ps c f k).2 =
                 PyOut.raise "KeyError: source-git") ∧
    (∀ c f k, (Dependency.checkout SgLookup.repo PathState.existsNotDir c f k).2 =
              PyOut.ret false) ∧
    (∀ ps c f k, ∃ bv, (Dependency.checkout SgLookup.repo ps c f k).2 = PyOut.ret bv) ∧
    (∀ ps c f k, (Dependency.checkout SgLookup.repo ps c f k).2 = PyOut.ret true ↔
       ((ps = PathState.missing ∧ c = true ∧ k = true) ∨
        (ps = PathState.existsDir ∧ f = true ∧ k = true))) := by
  refine ⟨?_, ?_, ?_, ?_, ?_⟩
  · intro ps c f k; cases ps <;> cases c <;> cases f <;> cases k <;> rfl
  · intro ps c f k; cases ps <;> cases c <;> cases f <;> cases k <;> rfl
  · intro c f k; cases c <;> cases f <;> cases k <;> rfl
  · intro ps c f k; cases ps <;> cases c <;> cases f <;> cases k <;>
      simp [Dependency.checkout]
  · intro ps c f k; cases ps <;> cases c <;> cases f <;> cases k <;>
      simp [Dependency.checkout]

/-! ## C9 and C10: building a dependency -/

/-- C9.  The merged environment is a last-write-wins merge in the fixed
order base, type defaults, definition, override: a lookup in the built
record's environment hits the override first, then the definition, then
the type defaults, then the base environment; and `has_overrides` is
true exactly when the override set is non-empty. -/
theorem c9_merge_order (base defn ov : Dict) :
    (∀ t td (name : Value) (env : Dict) (ho : Bool),
       lookupD defn "type" = some (.str t) →
       DEPENDENCY_TYPES t = some td →
       create_dependency base defn ov = .created name env ho →
       ∀ k, lookupD env k =
         (lookupD ov k).or ((lookupD defn k).or ((lookupD td k).or (lookupD base k)))) ∧
    (∀ (name : Value) (env : Dict) (ho : Bool),
       create_dependency base defn ov = .created name env ho →
       (ho = true ↔ ov ≠ [])) := by
  constructor
  · intro t td name env ho ht htd hc k
    unfold create_dependency at hc
    rw [ht] at hc
    simp only [htd] at hc
    obtain ⟨henv, -⟩ := mergeRest_created hc
    subst henv
    rw [lookup_pyUpdate, lookup_pyUpdate, lookup_pyUpdate, lookup_pyUpdate]
    simp [lookupD, List.lookup, Option.or_none]
  · intro name env ho hc
    unfold create_dependency at hc
    have hho : ho = decide (ov.length > 0) := by
      rcases hlt : lookupD defn "type" with - | tv
      · rw [hlt] at hc
        exact (mergeRest_created hc).2
      · rw [hlt] at hc
        rcases tv with s | bv | n | - | vs | kvs
        · rcases htd : DEPENDENCY_TYPES s with - | td <;> simp only [htd] at hc
          · simp at hc
          · exact (mergeRest_created hc).2
        · simp at hc
        · simp at hc
        · simp at hc
        · simp at hc
        · simp at hc
    subst hho
    simp [List.length_pos, decide_eq_true_eq]

/-- C9 witness: the spec example, `defnA` with override `ovA`:
`archive-filename` merges to `"a2.zip"` and `has_overrides` is true. -/
theorem c9_witness :
    create_dependency [] defnA ovA = .created (.str "A") envA true ∧
    lookupD envA "archive-filename" = some (.str "a2.zip") ∧
    (true = true ↔ ovA ≠ []) := by
  have h1 := (c9_merge_order [] defnA ovA).1 "external" externalType (.str "A") envA true
    rfl rfl rfl "archive-filename"
  have h2 := (c9_merge_order [] defnA ovA).2 (.str "A") envA true rfl
  exact ⟨rfl, by rw [h1]; rfl, h2⟩

/-- C10.  A definition whose `type` names none of the three built-in
types makes `create_dependency` raise the dict-subscript `KeyError`
immediately: the result is the key error for every base, definition and
override — in particular no `ignore` skip, no missing-name
`ValueError`, and no record ever happens, whatever else the definition
or override contain. -/
theorem c10_unknown_type_keyerror (base defn ov : Dict) (t : String)
    (h1 : lookupD defn "type" = some (.str t))
    (h2 : DEPENDENCY_TYPES t = none) :
    create_dependency base defn ov = .keyErr t := by
  unfold create_dependency
  rw [h1]
  simp only [h2]

/-- C10 witness: a typo `"exernal"` raises the key error even though the
definition also carries a truthy `ignore` and a `name`. -/
theorem c10_witness :
    create_dependency []
      [("type", .str "exernal"), ("name", .str "A"), ("ignore", .b true)] [] =
      .keyErr "exernal" :=
  c10_unknown_type_keyerror [] _ [] "exernal" rfl rfl

/-! ## Expander: unfolding equations -/

theorem expandF_key_succ (env : Env) (f : Nat) (st : ExpState) (k : String) :
    expandF env (f + 1) st (.key k) =
      (match List.lookup k st.cache with
       | some v => .ok (v, st)
       | none =>
         if st.expandset.contains k then .error (.recursive k, st)
         else
           match env k with
           | none => .error (.keyError k, ⟨st.cache, k :: st.expandset⟩)
           | some v =>
             match expandF env f ⟨st.cache, k :: st.expandset⟩ (.value v) with
             | .error e => .error e
             | .ok (r, st2) =>
               .ok (r, ⟨(k, r) :: st2.cache, removeKey k st2.expandset⟩)) := rfl

theorem expandF_value_succ (env : Env) (f : Nat) (st : ExpState) (v : Value) :
    expandF env (f + 1) st (.value v) =
      (match v with
       | .str s =>
         (match expandF env f st (.toks (tokenize s)) with
          | .error e => .error e
          | .ok (r, st') => .ok (r, st'))
       | .list vs => expandF env f st (.vlist vs)
       | .dict [] => .ok (.dict [], st)
       | .dict (kv :: kvs) => .error (.attrError, st)
       | other => .ok (other, st)) := by
  cases v with
  | dict kvs => cases kvs <;> rfl
  | _ => rfl

theorem expandF_toks_succ (env : Env) (f : Nat) (st : ExpState) (ts : List Token) :
    expandF env (f + 1) st (.toks ts) =
      (match ts with
       | [] => .ok (.str "", st)
       | .lit s :: rest =>
         (match expandF env f st (.toks rest) with
          | .error e => .error e
          | .ok (r, st') => .ok (.str (s ++ valStr r), st'))
       | .key k :: rest =>
         (match expandF env f st (.rep k) with
          | .error e => .error e
          | .ok (v, st') =>
            match v with
            | .str s =>
              (match expandF env f st' (.toks rest) with
               | .error e => .error e
               | .ok (r, st'') => .ok (.str (s ++ valStr r), st''))
            | _ => .error (.typeErrorStr, st'))) := rfl

theorem expandF_vlist_succ (env : Env) (f : Nat) (st : ExpState) (vs : List Value) :
    expandF env (f + 1) st (.vlist vs) =
      (match vs with
       | [] => .ok (.list [], st)
       | v :: rest =>
         (match expandF env f st (.value v) with
          | .error e => .error e
          | .ok (r, st') =>
            match expandF env f st' (.vlist rest) with
            | .error e => .error e
            | .ok (.list rs, st'') => .ok (.list (r :: rs), st'')
            | .ok (x, st'') => .ok (x, st''))) := rfl

theorem expandF_rep_succ (env : Env) (f : Nat) (st : ExpState) (k : String) :
    expandF env (f + 1) st (.rep k) =
      (if strContains (pyStrip k) '?' then expandF env f st (.cond (pyStrip k))
       else expandF env f st (.key (pyStrip k))) := rfl

theorem expandF_cond_succ (env : Env) (f : Nat) (st : ExpState) (k : String) :
    expandF env (f + 1) st (.cond k) =
      (match splitFirst '?' k with
       | none => .error (.malformed, st)
       | some (cond, rest) =>
         match splitFirst ':' rest with
         | none => .error (.malformed, st)
         | some (primary, alt) =>
           match expandF env f st (.key (pyStrip cond)) with
           | .ok (cv, st') =>
             if is_trueish cv then expandF env f st' (.key (pyStrip primary))
             else expandF env f st' (.key (pyStrip alt))
           | .error (.keyError k1, st') => expandF env f st' (.key (pyStrip alt))
           | .error e => .error e) := rfl

/-- The recursion guard fires at any fuel: a key that is uncached and
already on the in-progress stack raises the recursive-expansion error
with the state untouched. -/
theorem expand_in_progress (env : Env) (fuel : Nat) (st : ExpState) (k : String)
    (hc : List.lookup k st.cache = none) (hm : st.expandset.contains k = true) :
    expand env fuel st k = .error (.recursive k, st) := by
  cases fuel <;> simp only [expand, expandF, hc, hm, if_true]

/-! ## Expander: state evolution -/

theorem StP_rfl (st : ExpState) : StP st st :=
  ⟨fun _ h => h, fun _ _ h => h⟩

theorem StP_trans {s1 s2 s3 : ExpState} (h1 : StP s1 s2) (h2 : StP s2 s3) : StP s1 s3 :=
  ⟨fun k hk => h2.1 k (h1.1 k hk),
   fun k hk hc => h2.2 k (h1.1 k hk) (h1.2 k hk hc)⟩

theorem StP_push (st : ExpState) (k : String) :
    StP st ⟨st.cache, k :: st.expandset⟩ :=
  ⟨fun _ h => List.mem_cons_of_mem _ h, fun _ _ h => h⟩

theorem mem_removeKey_of_ne {x k : String} (l : List String) (h : x ≠ k) :
    x ∈ removeKey k l ↔ x ∈ l := by
  induction l with
  | nil => simp [removeKey]
  | cons y ys ih =>
    by_cases hy : y = k
    · subst hy
      simp [removeKey, List.mem_cons, h]
    · have hb : (y == k) = false := beq_eq_false_iff_ne.mpr hy
      simp [removeKey, hb, List.mem_cons, ih]


theorem expandF_key_go (env : Env) (f : Nat) (st : ExpState) (k : String) (v : Value)
    (hcl : List.lookup k st.cache = none)
    (hcs : st.expandset.contains k = false)
    (henv : env k = some v) :
    expandF env (f + 1) st (.key k) =
      (match expandF env f ⟨st.cache, k :: st.expandset⟩ (.value v) with
       | .error e => .error e
       | .ok (r, st2) => .ok (r, ⟨(k, r) :: st2.cache, removeKey k st2.expandset⟩)) := by
  simp only [expandF_key_succ, hcl, hcs, henv, Bool.false_eq_true, if_false]

theorem expandF_cond_go (env : Env) (f : Nat) (st : ExpState) (k cond rest primary alt : String)
    (hq : splitFirst '?' k = some (cond, rest))
    (hr : splitFirst ':' rest = some (primary, alt)) :
    expandF env (f + 1) st (.cond k) =
      (match expandF env f st (.key (pyStrip cond)) with
       | .ok (cv, st') =>
         if is_trueish cv then expandF env f st' (.key (pyStrip primary))
         else expandF env f st' (.key (pyStrip alt))
       | .error (.keyError k1, st') => expandF env f st' (.key (pyStrip alt))
       | .error e => .error e) := by
  simp only [expandF_cond_succ, hq, hr]

theorem expandF_statePreserved (env : Env) :
    ∀ (fuel : Nat) (st : ExpState) (j : Job), StP st (outState (expandF env fuel st j)) := by
  intro fuel
  induction fuel with
  | zero =>
    intro st j
    cases j with
    | key k =>
      cases hcl : List.lookup k st.cache with
      | some v =>
        have he : expandF env 0 st (.key k) = .ok (v, st) := by
          simp only [expandF, hcl]
        rw [he]; exact StP_rfl st
      | none =>
        cases hcs : st.expandset.contains k with
        | true =>
          have he : expandF env 0 st (.key k) = .error (.recursive k, st) := by
            simp only [expandF, hcl, hcs, if_true]
          rw [he]; exact StP_rfl st
        | false =>
          have he : expandF env 0 st (.key k) = .error (.fuelOut, st) := by
            simp only [expandF, hcl, hcs, Bool.false_eq_true, if_false]
          rw [he]; exact StP_rfl st
    | value v => exact StP_rfl st
    | toks ts => exact StP_rfl st
    | vlist vs => exact StP_rfl st
    | rep k => exact StP_rfl st
    | cond k => exact StP_rfl st
  | succ f ih =>
    intro st j
    cases j with
    | key k =>
      cases hcl : List.lookup k st.cache with
      | some v =>
        have he : expandF env (f + 1) st (.key k) = .ok (v, st) := by
          rw [expandF_key_succ, hcl]
        rw [he]
        exact StP_rfl st
      | none =>
        cases hcs : st.expandset.contains k with
        | true =>
          have he : expandF env (f + 1) st (.key k) = .error (.recursive k, st) := by
            rw [expandF_key_succ, hcl]
            simp only [hcs, if_true]
          rw [he]
          exact StP_rfl st
        | false =>
          cases henv : env k with
          | none =>
            have he : expandF env (f + 1) st (.key k) =
                .error (.keyError k, ⟨st.cache, k :: st.expandset⟩) := by
              rw [expandF_key_succ, hcl]
              simp only [hcs, henv, Bool.false_eq_true, if_false]
            rw [he]
            exact StP_push st k
          | some v =>
            rw [expandF_key_go env f st k v hcl hcs henv]
            have hih := ih ⟨st.cache, k :: st.expandset⟩ (.value v)
            cases hrec : expandF env f ⟨st.cache, k :: st.expandset⟩ (.value v) with
            | error e =>
              rw [hrec] at hih
              dsimp only
              exact StP_trans (StP_push st k) hih
            | ok p =>
              obtain ⟨r, st2⟩ := p
              rw [hrec] at hih
              dsimp only
              have hnm : k ∉ st.expandset := by
                intro hmem
                rw [(contains_iff_mem st.expandset k).mpr hmem] at hcs
                cases hcs
              have hstep : StP st ⟨st.cache, k :: st.expandset⟩ := StP_push st k
              refine ⟨?_, ?_⟩
              · intro x hx
                have hx2 : x ∈ st2.expandset := hih.1 x (hstep.1 x hx)
                have hxk : x ≠ k := fun he => hnm (he ▸ hx)
                exact (mem_removeKey_of_ne st2.expandset hxk).mpr hx2
              · intro x hx hcx
                have hxk : x ≠ k := fun he => hnm (he ▸ hx)
                have hc2 : List.lookup x st2.cache = none :=
                  hih.2 x (hstep.1 x hx) hcx
                show List.lookup x ((k, r) :: st2.cache) = none
                rw [List.lookup_cons]
                simp [beq_eq_false_iff_ne.mpr hxk, hc2]
    | value v =>
      cases v with
      | str s =>
        rw [show expandF env (f + 1) st (.value (.str s)) =
              (match expandF env f st (.toks (tokenize s)) with
               | .error e => .error e
               | .ok (r, st') => .ok (r, st')) from rfl]
        have hih := ih st (.toks (tokenize s))
        cases hrec : expandF env f st (.toks (tokenize s)) with
        | error e => rw [hrec] at hih; dsimp only; exact hih
        | ok p => obtain ⟨r, st'⟩ := p; rw [hrec] at hih; dsimp only; exact hih
      | list vs =>
        rw [show expandF env (f + 1) st (.value (.list vs)) =
              expandF env f st (.vlist vs) from rfl]
        exact ih st (.vlist vs)
      | dict kvs => cases kvs <;> exact StP_rfl st
      | b bv => exact StP_rfl st
      | num n => exact StP_rfl st
      | null => exact StP_rfl st
    | toks ts =>
      cases ts with
      | nil => exact StP_rfl st
      | cons t rest =>
        cases t with
        | lit s =>
          rw [show expandF env (f + 1) st (.toks (.lit s :: rest)) =
                (match expandF env f st (.toks rest) with
                 | .error e => .error e
                 | .ok (r, st') => .ok (.str (s ++ valStr r), st')) from rfl]
          have hih := ih st (.toks rest)
          cases hrec : expandF env f st (.toks rest) with
          | error e => rw [hrec] at hih; dsimp only; exact hih
          | ok p => obtain ⟨r, st'⟩ := p; rw [hrec] at hih; dsimp only; exact hih
        | key k =>
          rw [show expandF env (f + 1) st (.toks (.key k :: rest)) =
                (match expandF env f st (.rep k) with
                 | .error e => .error e
                 | .ok (v, st') =>
                   match v with
                   | .str s =>
                     (match expandF env f st' (.toks rest) with
                      | .error e => .error e
                      | .ok (r, st'') => .ok (.str (s ++ valStr r), st''))
                   | _ => .error (.typeErrorStr, st')) from rfl]
          have hih := ih st (.rep k)
          cases hrec : expandF env f st (.rep k) with
          | error e => rw [hrec] at hih; dsimp only; exact hih
          | ok p =>
            obtain ⟨v, st'⟩ := p
            rw [hrec] at hih
            dsimp only
            cases v with
            | str s =>
              have hih2 := ih st' (.toks rest)
              cases hrec2 : expandF env f st' (.toks rest) with
              | error e => rw [hrec2] at hih2; dsimp only; exact StP_trans hih hih2
              | ok p2 =>
                obtain ⟨r, st''⟩ := p2
                rw [hrec2] at hih2
                dsimp only
                exact StP_trans hih hih2
            | b bv => exact hih
            | num n => exact hih
            | null => exact hih
            | list vs => exact hih
            | dict kvs => exact hih
    | vlist vs =>
      cases vs with
      | nil => exact StP_rfl st
      | cons v rest =>
        rw [show expandF env (f + 1) st (.vlist (v :: rest)) =
              (match expandF env f st (.value v) with
               | .error e => .error e
               | .ok (r, st') =>
                 match expandF env f st' (.vlist rest) with
                 | .error e => .error e
                 | .ok (.list rs, st'') => .ok (.list (r :: rs), st'')
                 | .ok (x, st'') => .ok (x, st'')) from rfl]
        have hih := ih st (.value v)
        cases hrec : expandF env f st (.value v) with
        | error e => rw [hrec] at hih; dsimp only; exact hih
        | ok p =>
          obtain ⟨r, st'⟩ := p
          rw [hrec] at hih
          dsimp only
          have hih2 := ih st' (.vlist rest)
          cases hrec2 : expandF env f st' (.vlist rest) with
          | error e => rw [hrec2] at hih2; dsimp only; exact StP_trans hih hih2
          | ok p2 =>
            obtain ⟨x, st''⟩ := p2
            rw [hrec2] at hih2
            cases x <;> dsimp only <;> exact StP_trans hih hih2
    | rep k =>
      rw [expandF_rep_succ]
      cases hq : strContains (pyStrip k) '?' with
      | true => simp only [if_true]; exact ih st (.cond (pyStrip k))
      | false =>
        simp only [Bool.false_eq_true, if_false]
        exact ih st (.key (pyStrip k))
    | cond k =>
      cases hq : splitFirst '?' k with
      | none =>
        have he : expandF env (f + 1) st (.cond k) = .error (.malformed, st) := by
          rw [expandF_cond_succ, hq]
        rw [he]
        exact StP_rfl st
      | some p =>
        obtain ⟨cond, rest⟩ := p
        cases hr : splitFirst ':' rest with
        | none =>
          have he : expandF env (f + 1) st (.cond k) = .error (.malformed, st) := by
            simp only [expandF_cond_succ, hq, hr]
          rw [he]
          exact StP_rfl st
        | some p2 =>
          obtain ⟨primary, alt⟩ := p2
          rw [expandF_cond_go env f st k cond rest primary alt hq hr]
          have hih := ih st (.key (pyStrip cond))
          cases hrec : expandF env f st (.key (pyStrip cond)) with
          | ok p3 =>
            obtain ⟨cv, st'⟩ := p3
            rw [hrec] at hih
            dsimp only
            cases his : is_trueish cv with
            | true =>
              simp only [if_true]
              have hih2 := ih st' (.key (pyStrip primary))
              cases hrec2 : expandF env f st' (.key (pyStrip primary)) with
              | error e => rw [hrec2] at hih2; exact StP_trans hih hih2
              | ok p4 => obtain ⟨r, st''⟩ := p4; rw [hrec2] at hih2; exact StP_trans hih hih2
            | false =>
              simp only [Bool.false_eq_true, if_false]
              have hih2 := ih st' (.key (pyStrip alt))
              cases hrec2 : expandF env f st' (.key (pyStrip alt)) with
              | error e => rw [hrec2] at hih2; exact StP_trans hih hih2
              | ok p4 => obtain ⟨r, st''⟩ := p4; rw [hrec2] at hih2; exact StP_trans hih hih2
          | error e =>
            obtain ⟨e1, st'⟩ := e
            rw [hrec] at hih
            cases e1 with
            | keyError k1 =>
              dsimp only
              have hih2 := ih st' (.key (pyStrip alt))
              cases hrec2 : expandF env f st' (.key (pyStrip alt)) with
              | error e2 => rw [hrec2] at hih2; exact StP_trans hih hih2
              | ok p4 => obtain ⟨r, st''⟩ := p4; rw [hrec2] at hih2; exact StP_trans hih hih2
            | recursive k1 => dsimp only; exact hih
            | malformed => dsimp only; exact hih
            | typeErrorStr => dsimp only; exact hih
            | attrError => dsimp only; exact hih
            | fuelOut => dsimp only; exact hih

/-! ## C3: conditional expressions -/

/-- C3.  For every conditional `$\x7bcondition?primary:alternative\x7d`: a
condition whose resolution raises the undefined-key error is treated as
false (the branch taken is the alternative, the error is not
propagated); a resolved condition selects the primary exactly when
`is_trueish` holds of its value; the chosen branch is resolved as a
recursive key lookup of its whitespace-trimmed text; and `is_trueish`
holds exactly of `1`, boolean true, and the strings whose upper-case
form is `"1"`, `"YES"`, `"Y"`, `"TRUE"` or `"ON"`. -/
theorem c3_conditional_semantics (env : Env) (f : Nat) (st : ExpState)
    (key cond rest primary alt : String)
    (hq : splitFirst '?' key = some (cond, rest))
    (hc : splitFirst ':' rest = some (primary, alt)) :
    (∀ k1 st1, expand env f st (pyStrip cond) = .error (.keyError k1, st1) →
       expandconditional env (f + 1) st key = expand env f st1 (pyStrip alt)) ∧
    (∀ v st1, expand env f st (pyStrip cond) = .ok (v, st1) →
       expandconditional env (f + 1) st key =
         (if is_trueish v then expand env f st1 (pyStrip primary)
          else expand env f st1 (pyStrip alt))) ∧
    (∀ v, is_trueish v = true ↔
       (v = .num 1 ∨ v = .b true ∨
        ∃ s, v = .str s ∧ pyUpper s ∈ (["1", "YES", "Y", "TRUE", "ON"] : List String))) := by
  refine ⟨?_, ?_, ?_⟩
  · intro k1 st1 h
    show expandF env (f + 1) st (.cond key) = expandF env f st1 (.key (pyStrip alt))
    rw [expandF_cond_go env f st key cond rest primary alt hq hc]
    rw [show expand env f st (pyStrip cond) = expandF env f st (.key (pyStrip cond))
          from rfl] at h
    rw [h]
  · intro v st1 h
    show expandF env (f + 1) st (.cond key) =
      (if is_trueish v then expandF env f st1 (.key (pyStrip primary))
       else expandF env f st1 (.key (pyStrip alt)))
    rw [expandF_cond_go env f st key cond rest primary alt hq hc]
    rw [show expand env f st (pyStrip cond) = expandF env f st (.key (pyStrip cond))
          from rfl] at h
    rw [h]
  · intro v
    cases v with
    | str s => simp [is_trueish, contains_iff_mem]
    | b bv => cases bv <;> simp [is_trueish]
    | num n => simp [is_trueish]
    | null => simp [is_trueish]
    | list vs => simp [is_trueish]
    | dict kvs => simp [is_trueish]

/-- C3 witness: `flag = "on"` selects the (trimmed) primary `yes`. -/
theorem c3_witness :
    expandconditional envCond 20 initState "flag ? yes : no" =
      expand envCond 19 ⟨[("flag", Value.str "on")], []⟩ "yes" := by
  have h := (c3_conditional_semantics envCond 19 initState "flag ? yes : no" "flag "
    " yes : no" " yes " " no" rfl rfl).2.1 (.str "on") ⟨[("flag", .str "on")], []⟩ rfl
  rw [h]
  rfl

/-! ## C4: cycle detection -/

/-- C4.  Resolving a key that is already on the in-progress stack of the
current outermost resolve fails at once with the recursive-expansion
error, at any fuel (so no amount of budget makes it loop); and in any
environment with `a = "$\x7bb\x7d"` and `b = "$\x7ba\x7d"`, resolving `a` from a
fresh state terminates with the recursive-expansion error after the
fixed eight-step descent, whatever fuel remains beyond it. -/
theorem c4_cycle_detection :
    (∀ (env : Env) (fuel : Nat) (st : ExpState) (k : String),
       List.lookup k st.cache = none → st.expandset.contains k = true →
       expand env fuel st k = .error (.recursive k, st)) ∧
    (∀ (env : Env) (f : Nat),
       env "a" = some (.str "$\x7bb\x7d") → env "b" = some (.str "$\x7ba\x7d") →
       expand env (f + 8) initState "a" =
         .error (.recursive "a", ⟨[], ["b", "a"]⟩)) := by
  constructor
  · exact expand_in_progress
  · intro env f ha hb
    have hA : expandF env f ⟨[], ["b", "a"]⟩ (.key "a") =
        .error (.recursive "a", ⟨[], ["b", "a"]⟩) :=
      expand_in_progress env f ⟨[], ["b", "a"]⟩ "a" rfl rfl
    have hB : expandF env (f + 4) ⟨[], ["a"]⟩ (.key "b") =
        .error (.recursive "a", ⟨[], ["b", "a"]⟩) := by
      rw [expandF_key_go env (f + 3) ⟨[], ["a"]⟩ "b" (.str "$\x7ba\x7d") rfl rfl hb]
      have hv : expandF env (f + 3) ⟨[], ["b", "a"]⟩ (.value (.str "$\x7ba\x7d")) =
          .error (.recursive "a", ⟨[], ["b", "a"]⟩) := by
        have h1 : expandF env (f + 3) ⟨[], ["b", "a"]⟩ (.value (.str "$\x7ba\x7d")) =
            (match expandF env (f + 2) ⟨[], ["b", "a"]⟩ (.toks [Token.key "a"]) with
             | .error e => .error e
             | .ok (r, st') => .ok (r, st')) := rfl
        have hrep : expandF env (f + 1) ⟨[], ["b", "a"]⟩ (.rep "a") =
            .error (.recursive "a", ⟨[], ["b", "a"]⟩) := by
          have hr : expandF env (f + 1) ⟨[], ["b", "a"]⟩ (.rep "a") =
              expandF env f ⟨[], ["b", "a"]⟩ (.key "a") := rfl
          rw [hr, hA]
        have h2 : expandF env (f + 2) ⟨[], ["b", "a"]⟩ (.toks [Token.key "a"]) =
            .error (.recursive "a", ⟨[], ["b", "a"]⟩) := by
          rw [expandF_toks_succ]
          dsimp only
          rw [hrep]
        rw [h1, h2]
      rw [hv]
    show expandF env (f + 8) initState (.key "a") = _
    rw [expandF_key_go env (f + 7) initState "a" (.str "$\x7bb\x7d") rfl rfl ha]
    dsimp only [initState]
    have hv2 : expandF env (f + 7) ⟨[], ["a"]⟩ (.value (.str "$\x7bb\x7d")) =
        .error (.recursive "a", ⟨[], ["b", "a"]⟩) := by
      have h1 : expandF env (f + 7) ⟨[], ["a"]⟩ (.value (.str "$\x7bb\x7d")) =
          (match expandF env (f + 6) ⟨[], ["a"]⟩ (.toks [Token.key "b"]) with
           | .error e => .error e
           | .ok (r, st') => .ok (r, st')) := rfl
      have hrep : expandF env (f + 5) ⟨[], ["a"]⟩ (.rep "b") =
          .error (.recursive "a", ⟨[], ["b", "a"]⟩) := by
        have hr : expandF env (f + 5) ⟨[], ["a"]⟩ (.rep "b") =
            expandF env (f + 4) ⟨[], ["a"]⟩ (.key "b") := rfl
        rw [hr, hB]
      have h2 : expandF env (f + 6) ⟨[], ["a"]⟩ (.toks [Token.key "b"]) =
          .error (.recursive "a", ⟨[], ["b", "a"]⟩) := by
        rw [expandF_toks_succ]
        dsimp only
        rw [hrep]
      rw [h1, h2]
    rw [hv2]

/-- C4 witness: the concrete two-key cycle `envCycle`, and the guard
firing directly on a state whose stack already holds the key. -/
theorem c4_witness :
    expand envCycle 8 initState "a" = .error (.recursive "a", ⟨[], ["b", "a"]⟩) ∧
    expand envCycle 3 ⟨[], ["a"]⟩ "a" = .error (.recursive "a", ⟨[], ["a"]⟩) :=
  ⟨c4_cycle_detection.2 envCycle 0 rfl rfl,
   c4_cycle_detection.1 envCycle 3 ⟨[], ["a"]⟩ "a" rfl rfl⟩

/-! ## C5: failed resolutions are not retried as if fresh -/

/-- C5 counterexample.  On the empty environment, the first resolve of
`x` raises the undefined-key error; the very same call on the resulting
expander state raises the recursive-expansion error instead — the failed
attempt left `x` in the in-progress set, so the retry is not "exactly as
if the failed attempt had not happened". -/
theorem c5_counterexample :
    expand emptyEnv 2 initState "x" = .error (.keyError "x", ⟨[], ["x"]⟩) ∧
    expand emptyEnv 2 ⟨[], ["x"]⟩ "x" = .error (.recursive "x", ⟨[], ["x"]⟩) ∧
    ExpErr.recursive "x" ≠ ExpErr.keyError "x" :=
  ⟨rfl, rfl, by decide⟩

/-- C5 amended.  A failed resolution stores nothing in the cache for the
failing key — only successful computations are cached — but it is not
retried as if fresh: the key stays in the in-progress set, so every
subsequent resolve of that key on the same expander fails with the
recursive-expansion error. -/
theorem c5_failure_not_cached_but_poisons (env : Env) (f : Nat) (st : ExpState)
    (k : String) (e : ExpErr) (st' : ExpState)
    (hcache : List.lookup k st.cache = none)
    (h : expand env (f + 1) st k = .error (e, st')) :
    List.lookup k st'.cache = none ∧ k ∈ st'.expandset ∧
    ∀ g, expand env g st' k = .error (.recursive k, st') := by
  rw [show expand env (f + 1) st k = expandF env (f + 1) st (.key k) from rfl,
      expandF_key_succ, hcache] at h
  cases hcs : st.expandset.contains k with
  | true =>
    rw [hcs] at h
    simp only [if_true] at h
    have hst : st = st' := congrArg Prod.snd (Except.error.inj h)
    subst hst
    exact ⟨hcache, (contains_iff_mem st.expandset k).mp hcs,
      fun g => expand_in_progress env g st k hcache hcs⟩
  | false =>
    rw [hcs] at h
    simp only [Bool.false_eq_true, if_false] at h
    cases henv : env k with
    | none =>
      rw [henv] at h
      dsimp only at h
      have hst : (⟨st.cache, k :: st.expandset⟩ : ExpState) = st' :=
        congrArg Prod.snd (Except.error.inj h)
      subst hst
      refine ⟨hcache, List.mem_cons_self k st.expandset, fun g => ?_⟩
      exact expand_in_progress env g ⟨st.cache, k :: st.expandset⟩ k hcache
        ((contains_iff_mem _ k).mpr (List.mem_cons_self k st.expandset))
    | some v =>
      rw [henv] at h
      dsimp only at h
      have hp := expandF_statePreserved env f ⟨st.cache, k :: st.expandset⟩ (.value v)
      cases hrec : expandF env f ⟨st.cache, k :: st.expandset⟩ (.value v) with
      | ok p =>
        rw [hrec] at h
        obtain ⟨r, st2⟩ := p
        dsimp only at h
        cases h
      | error e2 =>
        rw [hrec] at h
        obtain ⟨e2a, e2b⟩ := e2
        dsimp only at h
        have hst : e2b = st' := congrArg Prod.snd (Except.error.inj h)
        rw [hrec] at hp
        rw [← hst]
        have hmem : k ∈ e2b.expandset := hp.1 k (List.mem_cons_self k st.expandset)
        have hnc : List.lookup k e2b.cache = none :=
          hp.2 k (List.mem_cons_self k st.expandset) hcache
        exact ⟨hnc, hmem, fun g =>
          expand_in_progress env g e2b k hnc ((contains_iff_mem _ k).mpr hmem)⟩

/-- C5 amended witness: the empty-environment failure, where the failed
key `x` is uncached but poisoned in the resulting state. -/
theorem c5_witness :
    List.lookup "x" (ExpState.mk [] ["x"]).cache = none ∧
    "x" ∈ (ExpState.mk [] ["x"]).expandset ∧
    ∀ g, expand emptyEnv g ⟨[], ["x"]⟩ "x" = .error (.recursive "x", ⟨[], ["x"]⟩) :=
  c5_failure_not_cached_but_poisons emptyEnv 1 initState "x" (.keyError "x")
    ⟨[], ["x"]⟩ rfl rfl

/-! ## C6: structural expansion of non-string values -/

/-- C6.  Structural expansion evaluated on both sides of the claim: a
list value is expanded element by element (a string element is resolved
through its references; booleans, numbers and null come back unchanged),
but a non-empty mapping value makes resolution raise the attribute error
of the missing `self.expandvalue` method instead of expanding the
mapping's values. -/
theorem c6_structural_expansion :
    expand envDictVal 5 initState "m" = .error (.attrError, ⟨[], ["m"]⟩) ∧
    expand envListVal 20 initState "l" =
      .ok (.list [.str "v", .num 7, .b false, .null],
           ⟨[("l", .list [.str "v", .num 7, .b false, .null]), ("s", .str "v")], []⟩) :=
  ⟨rfl, rfl⟩

/-! ## C1: clean_directories rolls back on a failed rename -/

theorem renamePhase_cons (locked : List Nat) (fs : FS) (d : String)
    (rest : List String) (moved : List (String × String)) :
    renamePhase locked fs (d :: rest) moved =
      (if isdir fs d then
        match os_rename locked fs d (deletemeName d) with
        | none => .failure d fs moved
        | some fs' => renamePhase locked fs' rest (moved ++ [(d, deletemeName d)])
       else renamePhase locked fs rest moved) := rfl

theorem rollbackPhase_cons (locked : List Nat) (fs : FS) (orig newn : String)
    (rest : List (String × String)) :
    rollbackPhase locked fs ((orig, newn) :: rest) =
      (match os_rename locked fs newn orig with
       | none => (fs, false)
       | some fs' => rollbackPhase locked fs' rest) := rfl

theorem deletemeName_inj {x y : String} (h : deletemeName x = deletemeName y) : x = y := by
  unfold deletemeName at h
  have hd : x.data ++ ".deleteme".data = y.data ++ ".deleteme".data := by
    rw [← String.data_append, ← String.data_append, h]
  exact String.ext (List.append_cancel_right hd)

theorem renamePhase_rollback_aux (locked : List Nat) (fs : FS) :
    ∀ (rest : List String) (fs' : FS) (moved : List (String × String)) (d : String),
      rest.Nodup →
      (∀ x ∈ rest, ∀ y ∈ rest, deletemeName x ≠ y) →
      (∀ x ∈ rest, fs' x = fs x) →
      (∀ x ∈ rest, fs' (deletemeName x) = none) →
      rollbackPhase locked fs' moved.reverse = (fs, true) →
      rest.find? (fun x => match fs x with
        | some c => locked.contains c
        | none => false) = some d →
      ∃ fsF movedF, renamePhase locked fs' rest moved = .failure d fsF movedF ∧
        rollbackPhase locked fsF movedF.reverse = (fs, true) := by
  intro rest
  induction rest with
  | nil =>
    intro fs' moved d _ _ _ _ _ hfind
    simp [List.find?] at hfind
  | cons x rest ih =>
    intro fs' moved d hnd hdelne hI2 hI3 hI1 hfind
    have hx_mem : x ∈ x :: rest := List.mem_cons_self x rest
    obtain ⟨hxnotin, hnd'⟩ := List.nodup_cons.mp hnd
    rw [List.find?_cons] at hfind
    cases hfsx : fs x with
    | none =>
      simp only [hfsx] at hfind
      have hisdir : isdir fs' x = false := by
        simp [isdir, hI2 x hx_mem, hfsx]
      rw [renamePhase_cons, hisdir]
      simp only [Bool.false_eq_true, if_false]
      exact ih fs' moved d hnd'
        (fun a ha b hb => hdelne a (List.mem_cons_of_mem x ha) b (List.mem_cons_of_mem x hb))
        (fun y hy => hI2 y (List.mem_cons_of_mem x hy))
        (fun y hy => hI3 y (List.mem_cons_of_mem x hy))
        hI1 hfind
    | some c =>
      have hfx : fs' x = some c := by rw [hI2 x hx_mem, hfsx]
      cases hlc : locked.contains c with
      | true =>
        simp only [hfsx, hlc] at hfind
        obtain rfl : x = d := Option.some.inj hfind
        refine ⟨fs', moved, ?_, hI1⟩
        rw [renamePhase_cons]
        have hisdir : isdir fs' x = true := by simp [isdir, hfx]
        rw [hisdir]
        simp only [if_true]
        have hren : os_rename locked fs' x (deletemeName x) = none := by
          unfold os_rename
          rw [hfx]
          dsimp only
          rw [hlc]
          rfl
        rw [hren]
      | false =>
        simp only [hfsx, hlc] at hfind
        have hdnx_ne_x : deletemeName x ≠ x := hdelne x hx_mem x hx_mem
        have hren : os_rename locked fs' x (deletemeName x) =
            some (fun n => if n = deletemeName x then some c
                           else if n = x then none else fs' n) := by
          unfold os_rename
          rw [hfx]
          dsimp only
          rw [hlc]
          rfl
        have hI2' : ∀ y ∈ rest,
            (fun n => if n = deletemeName x then some c
                      else if n = x then none else fs' n) y = fs y := by
          intro y hy
          have h1 : ¬ y = deletemeName x :=
            fun he => hdelne x hx_mem y (List.mem_cons_of_mem x hy) he.symm
          have h2 : ¬ y = x := fun he => hxnotin (he ▸ hy)
          show (if y = deletemeName x then some c else if y = x then none else fs' y) = fs y
          rw [if_neg h1, if_neg h2]
          exact hI2 y (List.mem_cons_of_mem x hy)
        have hI3' : ∀ y ∈ rest,
            (fun n => if n = deletemeName x then some c
                      else if n = x then none else fs' n) (deletemeName y) = none := by
          intro y hy
          have hyx : ¬ y = x := fun he => hxnotin (he ▸ hy)
          have h1 : ¬ deletemeName y = deletemeName x :=
            fun he => hyx (deletemeName_inj he)
          have h2 : ¬ deletemeName y = x :=
            hdelne y (List.mem_cons_of_mem x hy) x hx_mem
          show (if deletemeName y = deletemeName x then some c
                else if deletemeName y = x then none else fs' (deletemeName y)) = none
          rw [if_neg h1, if_neg h2]
          exact hI3 y (List.mem_cons_of_mem x hy)
        have hI1' : rollbackPhase locked
            (fun n => if n = deletemeName x then some c
                      else if n = x then none else fs' n)
            ((moved ++ [(x, deletemeName x)]).reverse) = (fs, true) := by
          rw [List.reverse_append]
          simp only [List.reverse_cons, List.reverse_nil, List.nil_append,
            List.singleton_append]
          rw [rollbackPhase_cons]
          have hgx : (fun n => if n = deletemeName x then some c
                               else if n = x then none else fs' n) (deletemeName x) =
              some c := by
            show (if deletemeName x = deletemeName x then some c
                  else if deletemeName x = x then none else fs' (deletemeName x)) = some c
            rw [if_pos rfl]
          have hren2 : os_rename locked
              (fun n => if n = deletemeName x then some c
                        else if n = x then none else fs' n)
              (deletemeName x) x =
              some (fun n => if n = x then some c
                             else if n = deletemeName x then none
                             else (fun m => if m = deletemeName x then some c
                                            else if m = x then none else fs' m) n) := by
            unfold os_rename
            rw [hgx]
            dsimp only
            rw [hlc]
            rfl
          rw [hren2]
          have hh : (fun n => if n = x then some c
                              else if n = deletemeName x then none
                              else (fun m => if m = deletemeName x then some c
                                             else if m = x then none else fs' m) n) = fs' := by
            funext n
            by_cases h1 : n = x
            · subst h1
              rw [if_pos rfl, hfx]
            · rw [if_neg h1]
              by_cases h2 : n = deletemeName x
              · subst h2
                rw [if_pos rfl]
                exact (hI3 x hx_mem).symm
              · rw [if_neg h2]
                show (if n = deletemeName x then some c
                      else if n = x then none else fs' n) = fs' n
                rw [if_neg h2, if_neg h1]
          rw [hh]
          exact hI1
        obtain ⟨fsF, movedF, hrp, hrb⟩ := ih
          (fun n => if n = deletemeName x then some c else if n = x then none else fs' n)
          (moved ++ [(x, deletemeName x)]) d hnd'
          (fun a ha b hb => hdelne a (List.mem_cons_of_mem x ha) b (List.mem_cons_of_mem x hb))
          hI2' hI3' hI1' hfind
        refine ⟨fsF, movedF, ?_, hrb⟩
        rw [renamePhase_cons]
        have hisdir : isdir fs' x = true := by simp [isdir, hfx]
        rw [hisdir]
        simp only [if_true]
        rw [hren]
        exact hrp

/-- C1.  If, while cleaning a list of distinct target directories (none
already shadowed by a `.deleteme` sibling), some directory's rename
fails — the first one whose contents another process has locked — then
`clean_directories` undoes every rename already performed, raises the
fatal error naming that directory, and leaves the filesystem exactly as
it started: every target directory is present under its original name
with unmodified contents, and nothing was deleted, since the delete
phase runs only after every rename in the batch has succeeded. -/
theorem c1_clean_rename_failure_restores
    (locked : List Nat) (fs : FS) (dirs : List String) (d : String)
    (hnd : dirs.Nodup)
    (hdel1 : ∀ x ∈ dirs, fs (deletemeName x) = none)
    (hdel2 : ∀ x ∈ dirs, ∀ y ∈ dirs, deletemeName x ≠ y)
    (hfind : dirs.find? (fun x => match fs x with
        | some c => locked.contains c
        | none => false) = some d) :
    clean_directories locked fs dirs = .err (failMessage d) fs ∧
    d ∈ dirs ∧ ∃ c, fs d = some c ∧ locked.contains c = true := by
  obtain ⟨fsF, movedF, hrp, hrb⟩ := renamePhase_rollback_aux locked fs dirs fs [] d hnd hdel2
    (fun x _ => rfl) hdel1 rfl hfind
  refine ⟨?_, List.mem_of_find?_eq_some hfind, ?_⟩
  · unfold clean_directories
    rw [hrp]
    try dsimp only
    rw [hrb]
  · have hp := List.find?_some hfind
    try dsimp only at hp
    cases hfsd : fs d with
    | none => rw [hfsd] at hp; cases hp
    | some c => rw [hfsd] at hp; exact ⟨c, rfl, hp⟩

/-- C1 witness: cleaning `["x", "y"]` where `y` is locked (content 2)
fails on `y`, restores `x`, and leaves the filesystem untouched. -/
theorem c1_witness :
    clean_directories [2] fsXY ["x", "y"] = .err (failMessage "y") fsXY ∧
    "y" ∈ ["x", "y"] ∧ ∃ c, fsXY "y" = some c ∧ ([2] : List Nat).contains c = true :=
  c1_clean_rename_failure_restores [2] fsXY ["x", "y"] "y" (by decide)
    (by decide) (by decide) (by decide)
